import Mathlib

/-
Verification development for the cargo-uefi launcher.

The embedding translates src/src/main.rs and src/src/error.rs into Lean.
Manifest parsing (toml_edit) is an external collaborator, so a manifest
source string is represented by its parse outcome. Filesystem reads made
during workspace expansion are represented by a function from member
directory paths (lists of path components appended to the project root)
to the observable state of that directorys Cargo.toml file.
-/

namespace CargoUefi

/-- TomlPackage mirrors struct TomlPackage of src/src/main.rs (lines 30-32). -/
structure TomlPackage where
  name : Option String
deriving DecidableEq

/-- TomlBin mirrors struct TomlBin of src/src/main.rs (lines 35-37). -/
structure TomlBin where
  name : Option String
deriving DecidableEq

/-- TomlWorkspace mirrors struct TomlWorkspace of src/src/main.rs (lines 40-42). -/
structure TomlWorkspace where
  members : Option (List String)
deriving DecidableEq

/-- TomlConfig mirrors struct TomlConfig of src/src/main.rs (lines 23-27). -/
structure TomlConfig where
  package : Option TomlPackage
  bin : Option (List TomlBin)
  workspace : Option TomlWorkspace
deriving DecidableEq

/-- TomlSrc stands for a manifest source string, represented by the outcome
of easy::from_str on it: bad when parsing fails, good with the parsed
TomlConfig otherwise. -/
inductive TomlSrc where
  | bad
  | good (cfg : TomlConfig)
deriving DecidableEq

/-- MemberFile is the observable state of a workspace member directorys
Cargo.toml, covering each outcome the code at src/src/main.rs lines
170-179 distinguishes: the path is not a file, File::open fails,
read_to_string fails, or the contents are read and yield a source. -/
inductive MemberFile where
  | missing
  | openFail
  | readFail
  | content (t : TomlSrc)
deriving DecidableEq

/-- Fs maps a member directory path (components appended below the
abstract project root) to the state of its Cargo.toml file. -/
abbrev Fs := List String → MemberFile

/-- RunResult is the outcome of get_binary_name: an Ok value, the
propagated toml parse error, a process abort (the expect call at line
176 of src/src/main.rs), or exhaustion of the artificial recursion fuel
used by the embedding. -/
inductive RunResult (α : Type) where
  | ok (a : α)
  | parseErr
  | abort (msg : String)
  | fuelOut
deriving DecidableEq

/-- pathRepr renders a path the way the Rust Debug formatter renders a
PathBuf, relative to the abstract project root. -/
def pathRepr (p : List String) : String :=
  "\"" ++ String.intercalate "/" p ++ "\""

/-- readFailMsg is the panic message built at src/src/main.rs line 175
for a member directory whose Cargo.toml fails read_to_string. -/
def readFailMsg (memberDir : List String) : String :=
  "failed to read from file: " ++ pathRepr (memberDir ++ ["Cargo.toml"])

/-- ws_expand embeds the member iterator chain inside
get_name_from_workspace (src/src/main.rs lines 167-184): each member
path is joined below the root; a member whose manifest is not a file or
fails to open is dropped; a member whose manifest fails read_to_string
aborts the process; otherwise the recursion runs on the member and an
erroneous recursive result is dropped while an Ok result contributes its
names in member order. The recursive call is passed in as recur. -/
def ws_expand (fs : Fs) (recur : TomlSrc → List String → RunResult (List String))
    (root : List String) : List String → RunResult (List String)
  | [] => .ok []
  | m :: ms =>
    match fs (root ++ [m]) with
    | .missing => ws_expand fs recur root ms
    | .openFail => ws_expand fs recur root ms
    | .readFail => .abort (readFailMsg (root ++ [m]))
    | .content t =>
      match recur t (root ++ [m]) with
      | .abort s => .abort s
      | .fuelOut => .fuelOut
      | .parseErr => ws_expand fs recur root ms
      | .ok v =>
        match ws_expand fs recur root ms with
        | .ok rest => .ok (v ++ rest)
        | r => r

/-- get_name_from_workspace embeds the inner function of the same name
(src/src/main.rs lines 165-186): it is Some exactly when the manifest
has a workspace.members list, and then expands the members. -/
def get_name_from_workspace (fs : Fs)
    (recur : TomlSrc → List String → RunResult (List String))
    (cfg : TomlConfig) (root : List String) : Option (RunResult (List String)) :=
  (cfg.workspace.bind TomlWorkspace.members).map (ws_expand fs recur root)

/-- get_name_fron_bins embeds the inner function of the same name
(src/src/main.rs lines 188-190): Some exactly when the bin key is
present, collecting the declared names in order. -/
def get_name_fron_bins (cfg : TomlConfig) : Option (List String) :=
  cfg.bin.map (fun bins => bins.filterMap TomlBin.name)

/-- get_name_from_package embeds the inner function of the same name
(src/src/main.rs lines 192-194): Some exactly when package.name is
present. -/
def get_name_from_package (cfg : TomlConfig) : Option (List String) :=
  cfg.package.bind (fun p => p.name.map (fun n => [n]))

/-- get_binary_name embeds the function of the same name
(src/src/main.rs lines 164-205). A bad source is the propagated parse
error. Otherwise the workspace result, when its Option is Some, wins via
Option::or over the bin and package results; the final unwrap_or gives
the empty list. Fuel bounds the member recursion depth, decreasing by
one at each nested get_binary_name call. -/
def get_binary_name (fs : Fs) : Nat → TomlSrc → List String → RunResult (List String)
  | _, .bad, _ => .parseErr
  | 0, .good _, _ => .fuelOut
  | fuel+1, .good cfg, root =>
    match get_name_from_workspace fs (get_binary_name fs fuel) cfg root with
    | some r => r
    | none => .ok (((get_name_fron_bins cfg).or (get_name_from_package cfg)).getD [])

/-- ErrorKind mirrors enum ErrorKind of src/src/error.rs (lines 10-13). -/
inductive ErrorKind where
  | NotAbleDetermineBinary
  | BinaryNotFound
deriving DecidableEq

/-- Error mirrors struct Error of src/src/error.rs (lines 4-7). -/
structure Error where
  kind : ErrorKind
  msg : String
deriving DecidableEq

/-- reprNames renders a list of names the way the Rust Debug formatter
renders a Vec of Strings. -/
def reprNames (names : List String) : String :=
  "[" ++ String.intercalate ", " (names.map (fun s => "\"" ++ s ++ "\"")) ++ "]"

/-- ambiguousMsg is the message built at src/src/main.rs line 152,
typo preserved; it embeds the full candidate list. -/
def ambiguousMsg (names : List String) : String :=
  "multiple candidates exists, not ablt to determine. " ++ reprNames names

/-- notFoundMsg is the message built at src/src/main.rs line 157. -/
def notFoundMsg (name : String) : String :=
  "binary " ++ name ++ " is not found"

/-- selectResult embeds the match at src/src/main.rs lines 148-159: with
no requested name, succeed on a singleton candidate list and otherwise
fail with NotAbleDetermineBinary carrying the candidate list; with a
requested name, succeed when it is contained in the candidates and
otherwise fail with BinaryNotFound naming it. -/
def selectResult (app_name : Option String) (names : List String) : Except Error String :=
  match app_name with
  | none =>
    if names.length = 1 then .ok (names.headD "")
    else .error ⟨.NotAbleDetermineBinary, ambiguousMsg names⟩
  | some name =>
    if names.contains name then .ok name
    else .error ⟨.BinaryNotFound, notFoundMsg name⟩

/-- FindResult is the outcome of find_binary_name: a resolved name, a
selection Error, or a propagated resolver outcome. -/
inductive FindResult where
  | ok (name : String)
  | err (e : Error)
  | parseErr
  | abort (msg : String)
  | fuelOut
deriving DecidableEq

/-- find_binary_name embeds the function of the same name
(src/src/main.rs lines 145-162): run get_binary_name, propagate its
failure, and otherwise select among the returned candidates. -/
def find_binary_name (fs : Fs) (fuel : Nat) (app_name : Option String)
    (toml : TomlSrc) (root : List String) : FindResult :=
  match get_binary_name fs fuel toml root with
  | .parseErr => .parseErr
  | .abort s => .abort s
  | .fuelOut => .fuelOut
  | .ok names =>
    match selectResult app_name names with
    | .ok n => .ok n
    | .error e => .err e

/-- WaitOutcome is the observable result of waiting on the spawned
child: an OS level wait error or the childs exit status code. -/
inductive WaitOutcome where
  | err (msg : String)
  | status (code : Int)
deriving DecidableEq

/-- SpawnOutcome is the observable result of spawning the emulator:
spawn failure, or a started child together with its wait outcome. -/
inductive SpawnOutcome where
  | spawnErr (msg : String)
  | started (w : WaitOutcome)
deriving DecidableEq

/-- qemu_args embeds the argument list built at src/src/main.rs lines
132-136: the pflash firmware drive, then the FAT staging drive, then
the user passthrough options. -/
def qemu_args (ovmf uefi_root : String) (options : List String) : List String :=
  ["-drive", "if=pflash,format=raw,readonly=on,file=" ++ ovmf,
   "-drive", "format=raw,file=fat:rw:" ++ uefi_root] ++ options

/-- run_qemu embeds the result of src/src/main.rs lines 130-143: a
spawn error propagates, and otherwise the result of wait is returned,
so a successfully started and waited child yields its exit status. -/
def run_qemu (spawn : SpawnOutcome) : Except String Int :=
  match spawn with
  | .spawnErr e => .error e
  | .started (.err e) => .error e
  | .started (.status c) => .ok c

/-- main_exit_code embeds the tail of main (src/src/main.rs lines
73-75): the question mark operator propagates an Err from run_qemu, and
on Ok the status value is discarded and main returns Ok unit. Under the
Rust Termination impl for Result, Ok unit exits with code 0 and Err
exits with code 1. -/
def main_exit_code (spawn : SpawnOutcome) : Int :=
  match run_qemu spawn with
  | .error _ => 1
  | .ok _ => 0

/-- bootDirPath is the staging directory tree created at src/src/main.rs
lines 61-63, relative to the system temp directory. -/
def bootDirPath : List String := ["UEFI", "EFI", "BOOT"]

/-- bootFilePath is the fixed boot loader destination of the copy at
src/src/main.rs lines 66-67, relative to the system temp directory. -/
def bootFilePath : List String := ["UEFI", "EFI", "BOOT", "BOOTX64.EFI"]

/-- StagingFs is the state of the staging area below the system temp
directory: which paths are directories and which paths hold a file with
which contents. -/
@[ext]
structure StagingFs where
  isDir : List String → Bool
  fileContent : List String → Option String
deriving Inhabited

/-- create_dir_all models std::fs::create_dir_all called at
src/src/main.rs line 63: the target directory and every ancestor come
to exist, and directories that already exist are not an error. -/
def create_dir_all (s : StagingFs) (p : List String) : StagingFs :=
  { s with isDir := fun q => s.isDir q || q.isPrefixOf p }

/-- copy_file models std::fs::copy called at src/src/main.rs line 67:
the destination file is created or overwritten with the source
contents. -/
def copy_file (s : StagingFs) (dst : List String) (content : String) : StagingFs :=
  { s with fileContent := fun q => if q = dst then some content else s.fileContent q }

/-- stage is the staging step of main (src/src/main.rs lines 61-67):
create the boot directory tree, then copy the selected artifact to the
fixed boot loader filename. -/
def stage (s : StagingFs) (artifact : String) : StagingFs :=
  copy_file (create_dir_all s bootDirPath) bootFilePath artifact

/-- fsEmpty is a filesystem with no member manifests at all. -/
def fsEmpty : Fs := fun _ => .missing

/-- cfgOneBin is the manifest of the repo test parse_one_bin_pattern. -/
def cfgOneBin : TomlConfig := ⟨some ⟨some "hoge"⟩, some [⟨some "fuga"⟩], none⟩

/-- cfgTwoBins is the manifest of the repo test parse_multiple_bin_pattern. -/
def cfgTwoBins : TomlConfig :=
  ⟨some ⟨some "hoge"⟩, some [⟨some "hogehoge"⟩, ⟨some "fugafuga"⟩], none⟩

/-- cfgPkgOnly is the manifest of the repo test parse_package_pattern. -/
def cfgPkgOnly : TomlConfig := ⟨some ⟨some "hoge"⟩, none, none⟩

/-- memberA is a member manifest declaring only a package name. -/
def memberA : TomlConfig := ⟨some ⟨some "abin"⟩, none, none⟩

/-- fsW has one member directory a holding the manifest memberA. -/
def fsW : Fs := fun p => if p = ["a"] then .content (.good memberA) else .missing

/-- cfgW is a workspace manifest listing member a and also declaring a
package name. -/
def cfgW : TomlConfig := ⟨some ⟨some "hoge"⟩, none, some ⟨some ["a"]⟩⟩

/-- fsReadFail has member a holding memberA and member b whose manifest
opens but fails to read. -/
def fsReadFail : Fs := fun p =>
  if p = ["a"] then .content (.good memberA)
  else if p = ["b"] then .readFail
  else .missing

theorem get_binary_name_bad (fs : Fs) (fuel : Nat) (root : List String) :
    get_binary_name fs fuel .bad root = .parseErr := by
  cases fuel <;> rfl

theorem get_binary_name_succ (fs : Fs) (fuel : Nat) (cfg : TomlConfig) (root : List String) :
    get_binary_name fs (fuel+1) (.good cfg) root =
      match cfg.workspace.bind TomlWorkspace.members with
      | some mems => ws_expand fs (get_binary_name fs fuel) root mems
      | none => .ok (((get_name_fron_bins cfg).or (get_name_from_package cfg)).getD []) := by
  cases hw : cfg.workspace.bind TomlWorkspace.members <;>
    simp [get_binary_name, get_name_from_workspace, hw]

theorem parse_one_bin_pattern :
    get_binary_name fsEmpty 1 (.good cfgOneBin) [] = .ok ["fuga"] := rfl

theorem parse_multiple_bin_pattern :
    get_binary_name fsEmpty 1 (.good cfgTwoBins) [] = .ok ["hogehoge", "fugafuga"] := rfl

theorem parse_package_pattern :
    get_binary_name fsEmpty 1 (.good cfgPkgOnly) [] = .ok ["hoge"] := rfl

theorem scenario_member_skip :
    get_binary_name fsW 2 (.good ⟨none, none, some ⟨some ["a", "b"]⟩⟩) [] = .ok ["abin"] := rfl

/-- C3: with no requested name, selection over the resolved candidates
succeeds exactly on a singleton candidate list; with zero or two or more
candidates it fails with the NotAbleDetermineBinary error whose message
carries the full candidate list, never with BinaryNotFound. -/
theorem c3_select_without_request (fs : Fs) (fuel : Nat) (toml : TomlSrc)
    (root : List String) (names : List String)
    (hres : get_binary_name fs fuel toml root = .ok names) :
    (∀ n, names = [n] → find_binary_name fs fuel none toml root = .ok n)
  ∧ (names.length ≠ 1 →
      find_binary_name fs fuel none toml root
        = .err ⟨.NotAbleDetermineBinary, ambiguousMsg names⟩) := by
  constructor
  · rintro n rfl
    simp [find_binary_name, hres, selectResult]
  · intro h
    simp [find_binary_name, hres, selectResult, h]

theorem c3_select_without_request_witness :
    find_binary_name fsEmpty 1 none (.good cfgOneBin) [] = .ok "fuga"
  ∧ find_binary_name fsEmpty 1 none (.good cfgTwoBins) []
      = .err ⟨.NotAbleDetermineBinary, ambiguousMsg ["hogehoge", "fugafuga"]⟩
  ∧ find_binary_name fsEmpty 1 none (.good ⟨none, none, none⟩) []
      = .err ⟨.NotAbleDetermineBinary, ambiguousMsg []⟩ :=
  ⟨(c3_select_without_request fsEmpty 1 (.good cfgOneBin) [] ["fuga"] rfl).1 "fuga" rfl,
   (c3_select_without_request fsEmpty 1 (.good cfgTwoBins) [] ["hogehoge", "fugafuga"] rfl).2
     (by decide),
   (c3_select_without_request fsEmpty 1 (.good ⟨none, none, none⟩) [] [] rfl).2 (by decide)⟩

/-- C4: with a requested name, selection succeeds with exactly that name
whenever it is among the resolved candidates, regardless of the
candidate count, and otherwise fails with the BinaryNotFound error whose
message names the requested binary. -/
theorem c4_select_with_request (fs : Fs) (fuel : Nat) (toml : TomlSrc)
    (root : List String) (names : List String) (name : String)
    (hres : get_binary_name fs fuel toml root = .ok names) :
    (name ∈ names → find_binary_name fs fuel (some name) toml root = .ok name)
  ∧ (name ∉ names →
      find_binary_name fs fuel (some name) toml root
        = .err ⟨.BinaryNotFound, notFoundMsg name⟩) := by
  constructor
  · intro h
    simp [find_binary_name, hres, selectResult, h]
  · intro h
    simp [find_binary_name, hres, selectResult, h]

theorem c4_select_with_request_witness :
    find_binary_name fsEmpty 1 (some "fugafuga") (.good cfgTwoBins) [] = .ok "fugafuga"
  ∧ find_binary_name fsEmpty 1 (some "nope") (.good cfgTwoBins) []
      = .err ⟨.BinaryNotFound, notFoundMsg "nope"⟩ :=
  ⟨(c4_select_with_request fsEmpty 1 (.good cfgTwoBins) [] ["hogehoge", "fugafuga"]
      "fugafuga" rfl).1 (by decide),
   (c4_select_with_request fsEmpty 1 (.good cfgTwoBins) [] ["hogehoge", "fugafuga"]
      "nope" rfl).2 (by decide)⟩

/-- C6 counterexample: a successfully started emulator that exits with
status 3 makes run_qemu return status 3, yet the program exit code is 0,
so the resulting exit status does not equal the child exit status. -/
theorem c6_counterexample :
    run_qemu (.started (.status 3)) = .ok 3
  ∧ main_exit_code (.started (.status 3)) = 0
  ∧ (0 : Int) ≠ 3 :=
  ⟨rfl, rfl, by decide⟩

/-- C6 amended: whenever the emulator is started and waited on
successfully, run_qemu returns the child exit status unchanged, but main
discards that status, so the program exits with code 0 whenever
run_qemu succeeds, regardless of the child status. -/
theorem c6_exit_status_amended :
    (∀ c : Int, run_qemu (.started (.status c)) = .ok c)
  ∧ (∀ (s : SpawnOutcome) (c : Int), run_qemu s = .ok c → main_exit_code s = 0) := by
  refine ⟨fun c => rfl, fun s c h => ?_⟩
  simp [main_exit_code, h]

theorem c6_exit_status_amended_witness :
    run_qemu (.started (.status 7)) = .ok 7
  ∧ main_exit_code (.started (.status 7)) = 0 :=
  ⟨c6_exit_status_amended.1 7,
   c6_exit_status_amended.2 (.started (.status 7)) 7 (c6_exit_status_amended.1 7)⟩

/-- C7: staging the same artifact twice into the same temp tree yields
exactly the staging state of staging it once; directory creation
tolerates pre-existing directories and the copy overwrites the previous
file, both by construction of the staging primitives. -/
theorem c7_staging_idempotent (s : StagingFs) (artifact : String) :
    stage (stage s artifact) artifact = stage s artifact := by
  ext q
  · simp [stage, copy_file, create_dir_all, Bool.or_assoc]
  · by_cases h : q = bootFilePath <;> simp [stage, copy_file, create_dir_all, h]

theorem ws_expand_skip_cons (fs : Fs) (fuel : Nat) (root : List String) (m : String)
    (ms : List String)
    (h : fs (root ++ [m]) = .missing ∨ fs (root ++ [m]) = .openFail
       ∨ fs (root ++ [m]) = .content .bad) :
    ws_expand fs (get_binary_name fs fuel) root (m :: ms)
      = ws_expand fs (get_binary_name fs fuel) root ms := by
  rcases h with h | h | h <;> simp [ws_expand, h, get_binary_name_bad]

theorem ws_expand_all_skip (fs : Fs) (fuel : Nat) (root : List String) :
    ∀ mems : List String,
      (∀ m ∈ mems, fs (root ++ [m]) = .missing ∨ fs (root ++ [m]) = .openFail
         ∨ fs (root ++ [m]) = .content .bad) →
      ws_expand fs (get_binary_name fs fuel) root mems = .ok [] := by
  intro mems
  induction mems with
  | nil => intro _; rfl
  | cons m ms ih =>
    intro h
    rw [ws_expand_skip_cons fs fuel root m ms (h m (List.mem_cons_self m ms))]
    exact ih (fun m2 hm2 => h m2 (List.mem_cons_of_mem m hm2))

theorem ws_expand_ne_fuelOut (fs : Fs)
    (recur : TomlSrc → List String → RunResult (List String)) (root : List String) :
    ∀ mems : List String,
      (∀ m ∈ mems, ∀ t, fs (root ++ [m]) = .content t →
        recur t (root ++ [m]) ≠ .fuelOut) →
      ws_expand fs recur root mems ≠ .fuelOut := by
  intro mems
  induction mems with
  | nil => intro _; simp [ws_expand]
  | cons m ms ih =>
    intro h
    have hms := ih (fun m2 hm2 t ht => h m2 (List.mem_cons_of_mem m hm2) t ht)
    cases hfs : fs (root ++ [m]) with
    | missing => simpa only [ws_expand, hfs] using hms
    | openFail => simpa only [ws_expand, hfs] using hms
    | readFail => simp [ws_expand, hfs]
    | content t =>
      have hrec := h m (List.mem_cons_self m ms) t hfs
      cases hr : recur t (root ++ [m]) with
      | ok v =>
        cases hws : ws_expand fs recur root ms with
        | ok rest => simp [ws_expand, hfs, hr, hws]
        | parseErr => simp [ws_expand, hfs, hr, hws]
        | abort s => simp [ws_expand, hfs, hr, hws]
        | fuelOut => exact absurd hws hms
      | parseErr => simpa only [ws_expand, hfs, hr] using hms
      | abort s => simp [ws_expand, hfs, hr]
      | fuelOut => exact absurd hr hrec

/-- C1 counterexample: the manifest with an empty workspace.members list
and package.name hoge makes the expansion yield zero candidates, yet
resolution returns the empty set instead of proceeding to the bin and
package steps, whose result (shown on the members-free manifest) would
be the singleton hoge. -/
theorem c1_counterexample :
    ws_expand fsEmpty (get_binary_name fsEmpty 4) [] [] = .ok []
  ∧ get_binary_name fsEmpty 5 (.good ⟨some ⟨some "hoge"⟩, none, some ⟨some []⟩⟩) [] = .ok []
  ∧ get_binary_name fsEmpty 5 (.good ⟨some ⟨some "hoge"⟩, none, none⟩) [] = .ok ["hoge"]
  ∧ RunResult.ok ([] : List String) ≠ .ok ["hoge"] :=
  ⟨rfl, rfl, rfl, by decide⟩

/-- C1 amended: whenever the manifest has a workspace.members key and the
expansion yields candidate list l (including the empty list), resolution
returns exactly l and never consults the bin or package steps; the bin
step and package fallback run exactly when the workspace.members key is
absent. -/
theorem c1_workspace_precedence_amended (fs : Fs) (fuel : Nat) (root : List String)
    (cfg : TomlConfig) :
    (∀ mems l, cfg.workspace.bind TomlWorkspace.members = some mems →
        ws_expand fs (get_binary_name fs fuel) root mems = .ok l →
        get_binary_name fs (fuel+1) (.good cfg) root = .ok l)
  ∧ (cfg.workspace.bind TomlWorkspace.members = none →
        get_binary_name fs (fuel+1) (.good cfg) root
          = .ok (((get_name_fron_bins cfg).or (get_name_from_package cfg)).getD [])) := by
  constructor
  · intro mems l hmem hws
    simp [get_binary_name_succ, hmem, hws]
  · intro hmem
    simp [get_binary_name_succ, hmem]

theorem c1_workspace_precedence_amended_witness :
    get_binary_name fsW 2 (.good cfgW) [] = .ok ["abin"]
  ∧ get_binary_name fsEmpty 1 (.good cfgPkgOnly) []
      = .ok (((get_name_fron_bins cfgPkgOnly).or (get_name_from_package cfgPkgOnly)).getD []) :=
  ⟨(c1_workspace_precedence_amended fsW 1 [] cfgW).1 ["a"] ["abin"] rfl rfl,
   (c1_workspace_precedence_amended fsEmpty 0 [] cfgPkgOnly).2 rfl⟩

/-- C2 counterexample: the manifest whose bin list has one entry without
a name and whose package.name is hoge resolves to the empty candidate
set, not to the singleton hoge the claim requires. -/
theorem c2_counterexample :
    get_binary_name fsEmpty 1 (.good ⟨some ⟨some "hoge"⟩, some [⟨none⟩], none⟩) [] = .ok []
  ∧ RunResult.ok ([] : List String) ≠ .ok ["hoge"] :=
  ⟨rfl, by decide⟩

/-- C2 amended: with no workspace.members key, a manifest with an absent
bin key and a package.name resolves to exactly that single name, while
the package fallback is skipped whenever the bin key is present, even
when no entry declares a name: resolution then returns the collected,
possibly empty, bin name list. -/
theorem c2_bin_package_fallback_amended (fs : Fs) (fuel : Nat) (root : List String)
    (pn : String) :
    (get_binary_name fs (fuel+1) (.good ⟨some ⟨some pn⟩, none, none⟩) root = .ok [pn])
  ∧ (∀ (pkg : Option TomlPackage) (bins : List TomlBin),
      get_binary_name fs (fuel+1) (.good ⟨pkg, some bins, none⟩) root
        = .ok (bins.filterMap TomlBin.name)) := by
  constructor
  · simp [get_binary_name_succ, get_name_fron_bins, get_name_from_package, Option.or]
  · intro pkg bins
    simp [get_binary_name_succ, get_name_fron_bins, Option.or]

/-- C5 counterexample: member b of this workspace opens but its manifest
fails to read, and resolution of the whole tree aborts with the panic
message instead of skipping the member. -/
theorem c5_counterexample :
    fsReadFail ["b"] = .readFail
  ∧ get_binary_name fsReadFail 2 (.good ⟨none, none, some ⟨some ["b"]⟩⟩) []
      = .abort (readFailMsg ["b"]) :=
  ⟨rfl, rfl⟩

/-- C5 amended: a member whose manifest is missing, fails to open, or
fails to parse contributes no candidates and resolution continues with
the remaining members, whose Ok contributions are concatenated in member
list order; however a member whose manifest opens and then fails to read
aborts the whole resolution with a panic. -/
theorem c5_member_fault_tolerance_amended (fs : Fs) (fuel : Nat) (root : List String)
    (m : String) (ms : List String) :
    ((fs (root ++ [m]) = .missing ∨ fs (root ++ [m]) = .openFail
        ∨ fs (root ++ [m]) = .content .bad) →
      ws_expand fs (get_binary_name fs fuel) root (m :: ms)
        = ws_expand fs (get_binary_name fs fuel) root ms)
  ∧ (fs (root ++ [m]) = .readFail →
      ws_expand fs (get_binary_name fs fuel) root (m :: ms)
        = .abort (readFailMsg (root ++ [m])))
  ∧ (∀ (cfg : TomlConfig) (l rest : List String),
      fs (root ++ [m]) = .content (.good cfg) →
      get_binary_name fs fuel (.good cfg) (root ++ [m]) = .ok l →
      ws_expand fs (get_binary_name fs fuel) root ms = .ok rest →
      ws_expand fs (get_binary_name fs fuel) root (m :: ms) = .ok (l ++ rest)) := by
  refine ⟨ws_expand_skip_cons fs fuel root m ms, ?_, ?_⟩
  · intro h
    simp [ws_expand, h]
  · intro cfg l rest hfs hrec hrest
    simp [ws_expand, hfs, hrec, hrest]

theorem c5_member_fault_tolerance_amended_witness :
    ws_expand fsReadFail (get_binary_name fsReadFail 1) [] ["c", "a"]
      = ws_expand fsReadFail (get_binary_name fsReadFail 1) [] ["a"]
  ∧ ws_expand fsReadFail (get_binary_name fsReadFail 1) [] ["b"]
      = .abort (readFailMsg ["b"])
  ∧ ws_expand fsReadFail (get_binary_name fsReadFail 1) [] ["a"]
      = .ok (["abin"] ++ []) :=
  ⟨(c5_member_fault_tolerance_amended fsReadFail 1 [] "c" ["a"]).1 (Or.inl rfl),
   (c5_member_fault_tolerance_amended fsReadFail 1 [] "b" []).2.1 rfl,
   (c5_member_fault_tolerance_amended fsReadFail 1 [] "a" []).2.2 memberA ["abin"] [] rfl rfl rfl⟩

/-- C9: when a manifest has a workspace.members key, the resolution
result is independent of its package and bin sections, and when every
listed member is skipped (missing, unopenable, or unparsable) the result
is the empty candidate set. -/
theorem c9_workspace_only_candidates (fs : Fs) (fuel : Nat) (root : List String)
    (mems : List String) :
    (∀ (pkg pkg2 : Option TomlPackage) (bins bins2 : Option (List TomlBin)),
        get_binary_name fs fuel (.good ⟨pkg, bins, some ⟨some mems⟩⟩) root
          = get_binary_name fs fuel (.good ⟨pkg2, bins2, some ⟨some mems⟩⟩) root)
  ∧ ((∀ m ∈ mems, fs (root ++ [m]) = .missing ∨ fs (root ++ [m]) = .openFail
        ∨ fs (root ++ [m]) = .content .bad) →
      ∀ (pkg : Option TomlPackage) (bins : Option (List TomlBin)),
        get_binary_name fs (fuel+1) (.good ⟨pkg, bins, some ⟨some mems⟩⟩) root = .ok []) := by
  constructor
  · intro pkg pkg2 bins bins2
    cases fuel with
    | zero => simp [get_binary_name]
    | succ f => simp [get_binary_name_succ]
  · intro h pkg bins
    simp only [get_binary_name_succ, Option.some_bind]
    exact ws_expand_all_skip fs fuel root mems h

theorem c9_workspace_only_candidates_witness :
    get_binary_name fsEmpty 3 (.good ⟨some ⟨some "x"⟩, some [⟨some "y"⟩], some ⟨some ["m1"]⟩⟩) []
      = get_binary_name fsEmpty 3 (.good ⟨none, none, some ⟨some ["m1"]⟩⟩) []
  ∧ get_binary_name fsEmpty 3 (.good ⟨some ⟨some "x"⟩, some [⟨some "y"⟩], some ⟨some ["m1"]⟩⟩) []
      = .ok [] :=
  ⟨(c9_workspace_only_candidates fsEmpty 3 [] ["m1"]).1
     (some ⟨some "x"⟩) none (some [⟨some "y"⟩]) none,
   (c9_workspace_only_candidates fsEmpty 2 [] ["m1"]).2
     (fun _ _ => Or.inl rfl) (some ⟨some "x"⟩) (some [⟨some "y"⟩])⟩

/-- C10: when the filesystem holds no member manifest deeper than n
levels below the root, resolution never exhausts any fuel bound above n,
so in the fuel embedding the recursion of get_binary_name terminates on
every manifest tree of finite acyclic nesting. -/
theorem c10_resolution_total (fs : Fs) (n : Nat) (root : List String) (t : TomlSrc)
    (fuel : Nat)
    (hdepth : ∀ p : List String, root.length + n < p.length → fs p = .missing)
    (hfuel : n < fuel) :
    get_binary_name fs fuel t root ≠ .fuelOut := by
  induction n generalizing root t fuel with
  | zero =>
    cases t with
    | bad => simp [get_binary_name_bad]
    | good cfg =>
      cases fuel with
      | zero => omega
      | succ f =>
        rw [get_binary_name_succ]
        cases hw : cfg.workspace.bind TomlWorkspace.members with
        | none => simp
        | some mems =>
          apply ws_expand_ne_fuelOut
          intro m hm t2 ht
          have hmiss : fs (root ++ [m]) = .missing := by
            apply hdepth
            simp
          rw [hmiss] at ht
          simp at ht
  | succ k ih =>
    cases t with
    | bad => simp [get_binary_name_bad]
    | good cfg =>
      cases fuel with
      | zero => omega
      | succ f =>
        rw [get_binary_name_succ]
        cases hw : cfg.workspace.bind TomlWorkspace.members with
        | none => simp
        | some mems =>
          apply ws_expand_ne_fuelOut
          intro m hm t2 ht
          apply ih (root ++ [m]) t2 f
          · intro p hp
            apply hdepth
            simp only [List.length_append, List.length_cons, List.length_nil] at hp ⊢
            omega
          · omega

theorem c10_resolution_total_witness :
    get_binary_name fsEmpty 1 (.good cfgPkgOnly) [] ≠ .fuelOut :=
  c10_resolution_total fsEmpty 0 [] (.good cfgPkgOnly) 1 (fun p hp => rfl) (by decide)

/-- C8: the emulator argument list starts with the read-only raw pflash
firmware drive pair, then the raw FAT staging drive pair, and everything
after those four fixed arguments is exactly the user passthrough list. -/
theorem c8_qemu_arg_order (ovmf uefi_root : String) (options : List String) :
    (qemu_args ovmf uefi_root options).take 4
      = ["-drive", "if=pflash,format=raw,readonly=on,file=" ++ ovmf,
         "-drive", "format=raw,file=fat:rw:" ++ uefi_root]
  ∧ (qemu_args ovmf uefi_root options).drop 4 = options :=
  ⟨rfl, rfl⟩

end CargoUefi
